import Mathlib

/-!
Verification development for the ng-effects effect-initialization pipeline.

The embedding follows the source files:
  * `src/libs/ng-effects/src/lib/internals/init-effects.ts` — `InitEffects.run`
    iterates the resolved effect metadata in order; effects whose options have
    `whenRendered` set are subscribed (through `take(1)`) to the render gate,
    the rest are initialized immediately; `ngOnDestroy` unsubscribes the
    aggregate subscription.
  * `src/libs/ng-effects/src/lib/internals/connect-factory.ts` — the `connect`
    function adds the host context to the shared `currentContext` set, resolves
    every `HOST_INITIALIZER` token from the injector in order, then clears the
    set.
Parts of the pipeline whose implementation files are not among the provided
sources (`utils.ts` with `initEffect`, `view-renderer.ts`, the metadata
resolution in the providers) are modelled from the specification; each such
definition carries a doc comment saying so.
-/

namespace NgEffects

/-- One resolved effect metadata entry, restricted to the fields the
`InitEffects.run` loop branches on: the effect method's name (standing for the
effect function identity) and `options.whenRendered`. -/
structure Entry where
  name : String
  whenRendered : Bool
deriving DecidableEq, Repr

/-- Observable state of one `InitEffects` instance: the trace of `initEffect`
invocations (in order), the render-gated entries whose gate subscription is
still live, whether the render gate has fired, whether `ngOnDestroy` ran, and
how many times the gate error callback hit `console.error`. -/
structure InitState where
  invoked : List String
  pending : List String
  gateFired : Bool
  destroyed : Bool
  consoleErrors : Nat
deriving DecidableEq, Repr

def initialState : InitState :=
  { invoked := [], pending := [], gateFired := false, destroyed := false, consoleErrors := 0 }

/-- One iteration of the `for (const ... of effects)` loop in
`InitEffects.run`: a `whenRendered` entry subscribes to the gate (recorded in
`pending`, and the subscription is added to `subs`), any other entry calls
`initEffect` immediately. -/
def registerEntry (s : InitState) (e : Entry) : InitState :=
  if e.whenRendered then { s with pending := s.pending ++ [e.name] }
  else { s with invoked := s.invoked ++ [e.name] }

/-- `InitEffects.run`, called synchronously from the `InitEffects`
constructor while `connect` resolves the host's initializer tokens. -/
def runInit (effects : List Entry) : InitState :=
  effects.foldl registerEntry initialState

/-- Events the host framework can deliver after `run` returned: the render
commit signal, an error on the render gate stream, and host destruction. -/
inductive REvent
  | renderCommit
  | renderError
  | destroy
deriving DecidableEq, Repr

/-- Event semantics. A first render commit delivers the single `take(1)`
notification to every pending gate subscription, invoking the gated effects in
subscription (= declaration) order; after that the gate stays fired and emits
nothing more. A gate error hits each pending subscription's error callback
(`error => console.error(error)`). `ngOnDestroy` runs `subs.unsubscribe()`,
closing every pending gate subscription. -/
def stepEvent (s : InitState) : REvent → InitState
  | REvent.renderCommit =>
      if s.gateFired then s
      else { s with invoked := s.invoked ++ s.pending, pending := [], gateFired := true }
  | REvent.renderError =>
      if s.gateFired then s
      else { s with consoleErrors := s.consoleErrors + s.pending.length, pending := [],
                    gateFired := true }
  | REvent.destroy => { s with destroyed := true, pending := [] }

/-- State after `run` followed by a sequence of framework events. -/
def runTrace (effects : List Entry) (evs : List REvent) : InitState :=
  evs.foldl stepEvent (runInit effects)

lemma foldl_registerEntry_invoked (effects : List Entry) (s : InitState) :
    (effects.foldl registerEntry s).invoked
      = s.invoked ++ (effects.filter (fun e => !e.whenRendered)).map Entry.name := by
  induction effects generalizing s with
  | nil => simp
  | cons e es ih =>
      cases hw : e.whenRendered <;>
        simp [registerEntry, hw, ih, List.filter_cons]

lemma foldl_registerEntry_pending (effects : List Entry) (s : InitState) :
    (effects.foldl registerEntry s).pending
      = s.pending ++ (effects.filter (fun e => e.whenRendered)).map Entry.name := by
  induction effects generalizing s with
  | nil => simp
  | cons e es ih =>
      cases hw : e.whenRendered <;>
        simp [registerEntry, hw, ih, List.filter_cons]

lemma runInit_invoked (effects : List Entry) :
    (runInit effects).invoked = (effects.filter (fun e => !e.whenRendered)).map Entry.name := by
  simp [runInit, foldl_registerEntry_invoked, initialState]

lemma runInit_pending (effects : List Entry) :
    (runInit effects).pending = (effects.filter (fun e => e.whenRendered)).map Entry.name := by
  simp [runInit, foldl_registerEntry_pending, initialState]

/-- C1: for a host whose N registered effect metadata entries all have
`options.whenRendered` unset, `InitEffects.run` — executed synchronously inside
the `connect` call, via the `InitEffects` constructor — invokes `initEffect`
for all N entries, in declaration order, before returning; no entry is left
waiting on the render gate. -/
theorem connect_runs_all_effects_in_order (effects : List Entry)
    (h : ∀ e ∈ effects, e.whenRendered = false) :
    (runInit effects).invoked = effects.map Entry.name ∧ (runInit effects).pending = [] := by
  constructor
  · rw [runInit_invoked]
    have hf : effects.filter (fun e => !e.whenRendered) = effects := by
      apply List.filter_eq_self.mpr
      intro e he
      simp [h e he]
    rw [hf]
  · rw [runInit_pending]
    have hf : effects.filter (fun e => e.whenRendered) = [] := by
      apply List.filter_eq_nil_iff.mpr
      intro e he
      simp [h e he]
    simp [hf]

/-- Witness for C1 at a concrete two-effect host. -/
theorem connect_runs_all_effects_in_order_witness :
    (runInit [⟨"a", false⟩, ⟨"b", false⟩]).invoked = ["a", "b"] ∧
      (runInit [⟨"a", false⟩, ⟨"b", false⟩]).pending = [] :=
  connect_runs_all_effects_in_order [⟨"a", false⟩, ⟨"b", false⟩] (by decide)

lemma foldl_registerEntry_gateFired (effects : List Entry) (s : InitState) :
    (effects.foldl registerEntry s).gateFired = s.gateFired := by
  induction effects generalizing s with
  | nil => rfl
  | cons e es ih => cases hw : e.whenRendered <;> simp [registerEntry, hw, ih]

lemma foldl_registerEntry_consoleErrors (effects : List Entry) (s : InitState) :
    (effects.foldl registerEntry s).consoleErrors = s.consoleErrors := by
  induction effects generalizing s with
  | nil => rfl
  | cons e es ih => cases hw : e.whenRendered <;> simp [registerEntry, hw, ih]

lemma runInit_gateFired (effects : List Entry) : (runInit effects).gateFired = false := by
  simp [runInit, foldl_registerEntry_gateFired, initialState]

lemma runInit_consoleErrors (effects : List Entry) : (runInit effects).consoleErrors = 0 := by
  simp [runInit, foldl_registerEntry_consoleErrors, initialState]

lemma gated_counts (effects : List Entry) (e : Entry)
    (he : e ∈ effects) (hw : e.whenRendered = true)
    (hnd : (effects.map Entry.name).Nodup) :
    (runInit effects).invoked.count e.name = 0 ∧ (runInit effects).pending.count e.name = 1 := by
  have hperm :
      ((effects.filter (fun x => x.whenRendered) ++
          effects.filter (fun x => !x.whenRendered)).map Entry.name).Perm
        (effects.map Entry.name) :=
    (List.filter_append_perm _ effects).map Entry.name
  have hsum : ((effects.filter (fun x => x.whenRendered)).map Entry.name).count e.name
      + ((effects.filter (fun x => !x.whenRendered)).map Entry.name).count e.name
      = (effects.map Entry.name).count e.name := by
    have hc := hperm.count_eq e.name
    simpa [List.map_append, List.count_append] using hc
  have hone : (effects.map Entry.name).count e.name = 1 :=
    List.count_eq_one_of_mem hnd (List.mem_map_of_mem _ he)
  have hmemp : e.name ∈ (effects.filter (fun x => x.whenRendered)).map Entry.name :=
    List.mem_map_of_mem _ (List.mem_filter.mpr ⟨he, by simp [hw]⟩)
  have hpos : 0 < ((effects.filter (fun x => x.whenRendered)).map Entry.name).count e.name :=
    List.count_pos_iff.mpr hmemp
  rw [runInit_invoked, runInit_pending]
  omega

lemma stepEvent_invoked_noCommit (s : InitState) (ev : REvent)
    (h : ev ≠ REvent.renderCommit) :
    (stepEvent s ev).invoked = s.invoked := by
  cases ev with
  | renderCommit => exact absurd rfl h
  | renderError => simp only [stepEvent]; split <;> rfl
  | destroy => rfl

lemma trace_invoked_noCommit (evs : List REvent) (s : InitState)
    (h : REvent.renderCommit ∉ evs) :
    (evs.foldl stepEvent s).invoked = s.invoked := by
  induction evs generalizing s with
  | nil => rfl
  | cons ev rest ih =>
      have hne : ev ≠ REvent.renderCommit := fun hc => h (by simp [hc])
      have hrest := ih (stepEvent s ev) (fun hm => h (List.mem_cons_of_mem _ hm))
      rw [List.foldl_cons, hrest, stepEvent_invoked_noCommit s ev hne]

lemma trace_pending_empty (evs : List REvent) (s : InitState) (h : s.pending = []) :
    (evs.foldl stepEvent s).invoked = s.invoked ∧ (evs.foldl stepEvent s).pending = [] := by
  induction evs generalizing s with
  | nil => exact ⟨rfl, h⟩
  | cons ev rest ih =>
      have hstep : (stepEvent s ev).invoked = s.invoked ∧ (stepEvent s ev).pending = [] := by
        cases ev with
        | renderCommit => simp only [stepEvent]; split <;> simp [h]
        | renderError => simp only [stepEvent]; split <;> simp [h]
        | destroy => exact ⟨rfl, rfl⟩
      obtain ⟨h1, h2⟩ := ih (stepEvent s ev) hstep.2
      exact ⟨by rw [List.foldl_cons, h1, hstep.1], by rw [List.foldl_cons]; exact h2⟩

/-- C2: a `whenRendered` effect is never invoked on any event trace that does
not contain the render-commit signal; the first render commit invokes it
exactly once; a second render commit does not invoke it again (the gate
subscription took exactly one notification). -/
theorem whenRendered_gate_single_shot (effects : List Entry) (e : Entry)
    (he : e ∈ effects) (hw : e.whenRendered = true)
    (hnd : (effects.map Entry.name).Nodup) :
    (∀ evs : List REvent, REvent.renderCommit ∉ evs →
        (runTrace effects evs).invoked.count e.name = 0) ∧
    (runTrace effects [REvent.renderCommit]).invoked.count e.name = 1 ∧
    (runTrace effects
        [REvent.renderCommit, REvent.renderCommit]).invoked.count e.name = 1 := by
  obtain ⟨h0, hp⟩ := gated_counts effects e he hw hnd
  have hg : (runInit effects).gateFired = false := runInit_gateFired effects
  have h1 : runTrace effects [REvent.renderCommit]
      = { runInit effects with
          invoked := (runInit effects).invoked ++ (runInit effects).pending,
          pending := [], gateFired := true } := by
    simp [runTrace, stepEvent, hg]
  refine ⟨?_, ?_, ?_⟩
  · intro evs hno
    rw [runTrace, trace_invoked_noCommit evs _ hno]
    exact h0
  · rw [h1]
    simp [List.count_append, h0, hp]
  · have hRfl : runTrace effects [REvent.renderCommit, REvent.renderCommit]
        = stepEvent (runTrace effects [REvent.renderCommit]) REvent.renderCommit := rfl
    rw [hRfl, h1]
    simp [stepEvent, List.count_append, h0, hp]

/-- Witness for C2 at a concrete one-effect host. -/
theorem whenRendered_gate_single_shot_witness :
    (runTrace [⟨"g", true⟩] []).invoked.count "g" = 0 ∧
    (runTrace [⟨"g", true⟩] [REvent.renderCommit]).invoked.count "g" = 1 ∧
    (runTrace [⟨"g", true⟩]
        [REvent.renderCommit, REvent.renderCommit]).invoked.count "g" = 1 := by
  have h := whenRendered_gate_single_shot [⟨"g", true⟩] ⟨"g", true⟩ (by decide) rfl (by decide)
  exact ⟨h.1 [] (by decide), h.2.1, h.2.2⟩

/-- C7: destroying the host before the render commit signal fires means the
gated effect is never invoked — whatever events follow — and immediately after
the destroy step no pending gate subscription remains
(`subs.unsubscribe()` closed it). -/
theorem destroy_before_render_skips_gated (effects : List Entry) (e : Entry)
    (he : e ∈ effects) (hw : e.whenRendered = true)
    (hnd : (effects.map Entry.name).Nodup)
    (pre post : List REvent) (hpre : REvent.renderCommit ∉ pre) :
    (runTrace effects (pre ++ REvent.destroy :: post)).invoked.count e.name = 0 ∧
    (runTrace effects (pre ++ [REvent.destroy])).pending = [] := by
  obtain ⟨h0, _⟩ := gated_counts effects e he hw hnd
  have hPre : ((pre.foldl stepEvent (runInit effects))).invoked = (runInit effects).invoked :=
    trace_invoked_noCommit pre _ hpre
  have hD : (stepEvent (pre.foldl stepEvent (runInit effects)) REvent.destroy).invoked
        = (runInit effects).invoked ∧
      (stepEvent (pre.foldl stepEvent (runInit effects)) REvent.destroy).pending = [] := by
    constructor
    · rw [stepEvent_invoked_noCommit _ _ (by simp), hPre]
    · rfl
  constructor
  · have hsplit : runTrace effects (pre ++ REvent.destroy :: post)
        = post.foldl stepEvent
            (stepEvent (pre.foldl stepEvent (runInit effects)) REvent.destroy) := by
      simp [runTrace, List.foldl_append]
    rw [hsplit, (trace_pending_empty post _ hD.2).1, hD.1]
    exact h0
  · have hsplit : runTrace effects (pre ++ [REvent.destroy])
        = stepEvent (pre.foldl stepEvent (runInit effects)) REvent.destroy := by
      simp [runTrace, List.foldl_append]
    rw [hsplit]
    exact hD.2

/-- Witness for C7: host with one gated effect, destroyed at once, render
commit arriving afterwards. -/
theorem destroy_before_render_skips_gated_witness :
    (runTrace [⟨"g", true⟩] ([] ++ REvent.destroy :: [REvent.renderCommit])).invoked.count "g"
        = 0 ∧
    (runTrace [⟨"g", true⟩] ([] ++ [REvent.destroy])).pending = [] :=
  destroy_before_render_skips_gated [⟨"g", true⟩] ⟨"g", true⟩ (by decide) rfl (by decide)
    [] [REvent.renderCommit] (by decide)

/-- C9: if the render gate stream errors, the gated effect is never invoked
(also on any later events), each pending gate subscription reports the error
through `console.error`, and the invocation trace of the other (immediate)
effects is exactly as it was — they ran unaffected, in declaration order. -/
theorem render_gate_error_contained (effects : List Entry) (e : Entry)
    (he : e ∈ effects) (hw : e.whenRendered = true)
    (hnd : (effects.map Entry.name).Nodup) (post : List REvent) :
    (runTrace effects (REvent.renderError :: post)).invoked.count e.name = 0 ∧
    (runTrace effects [REvent.renderError]).consoleErrors
      = (effects.filter (fun x => x.whenRendered)).length ∧
    (runTrace effects [REvent.renderError]).invoked
      = (effects.filter (fun x => !x.whenRendered)).map Entry.name := by
  obtain ⟨h0, _⟩ := gated_counts effects e he hw hnd
  have hg : (runInit effects).gateFired = false := runInit_gateFired effects
  have hE : runTrace effects [REvent.renderError]
      = { runInit effects with
          consoleErrors := (runInit effects).consoleErrors + (runInit effects).pending.length,
          pending := [], gateFired := true } := by
    simp [runTrace, stepEvent, hg]
  refine ⟨?_, ?_, ?_⟩
  · have hRfl : runTrace effects (REvent.renderError :: post)
        = post.foldl stepEvent (runTrace effects [REvent.renderError]) := rfl
    have hpend : (runTrace effects [REvent.renderError]).pending = [] := by rw [hE]
    rw [hRfl, (trace_pending_empty post _ hpend).1, hE]
    exact h0
  · rw [hE]
    simp [runInit_consoleErrors, runInit_pending]
  · rw [hE]
    exact runInit_invoked effects

/-- Witness for C9: one immediate and one gated effect, gate errors, then a
render commit still invokes nothing new. -/
theorem render_gate_error_contained_witness :
    (runTrace [⟨"i", false⟩, ⟨"g", true⟩]
        (REvent.renderError :: [REvent.renderCommit])).invoked.count "g" = 0 ∧
    (runTrace [⟨"i", false⟩, ⟨"g", true⟩] [REvent.renderError]).consoleErrors
      = ([⟨"i", false⟩, ⟨"g", true⟩].filter (fun x : Entry => x.whenRendered)).length ∧
    (runTrace [⟨"i", false⟩, ⟨"g", true⟩] [REvent.renderError]).invoked
      = (([⟨"i", false⟩, ⟨"g", true⟩] : List Entry).filter
          (fun x => !x.whenRendered)).map Entry.name :=
  render_gate_error_contained [⟨"i", false⟩, ⟨"g", true⟩] ⟨"g", true⟩ (by decide) rfl
    (by decide) [REvent.renderCommit]

/-- Values an effect can emit: a primitive, or an object with (integer-valued)
fields, enough to distinguish the object / non-object classification the
Invocation Engine performs. -/
inductive Value
  | vint (n : Int)
  | vobj (fields : List (String × Int))
deriving DecidableEq, Repr

/-- The host instance seen as its own enumerable properties, in order. -/
abbrev Host := List (String × Value)

/-- Property read (first matching key, as in a JS object every key is
unique). -/
def getProp : Host → String → Option Value
  | [], _ => none
  | p :: t, k => if p.1 = k then some p.2 else getProp t k

def ownsProp (h : Host) (k : String) : Bool := (getProp h k).isSome

/-- Property write: update the existing key, append the key otherwise (JS
assignment semantics). -/
def setProp : Host → String → Value → Host
  | [], k, v => [(k, v)]
  | p :: t, k, v => if p.1 = k then (k, v) :: t else p :: setProp t k v

/-- A resolved binding target: none (side effect only), one named host
property, or whole-object binding (`apply`). -/
inductive Binding
  | unbound
  | prop (name : String)
  | applyAll
deriving DecidableEq, Repr

/-- Outcome of handling one emitted value: the updated host and the number of
binding errors surfaced to the global error channel. -/
structure EmitOutcome where
  host : Host
  errors : Nat
deriving DecidableEq, Repr

/-- Modelled from the spec: the per-emission binding write of the Invocation
Engine (§4.4); its implementing file (`src/lib/internals/utils.ts`,
`initEffect`) is not among the provided sources. Whole-object binding writes
every key of an emitted object onto the matching host property and surfaces a
binding error, changing nothing, when the emitted value is not an object;
single-property binding writes the named property and surfaces a binding error
when the host does not own it; without a binding target the value is observed
only for its side effect. -/
def applyEmission (binding : Binding) (host : Host) (v : Value) : EmitOutcome :=
  match binding with
  | Binding.applyAll =>
      match v with
      | Value.vobj fields =>
          ⟨fields.foldl (fun h kv => setProp h kv.1 (Value.vint kv.2)) host, 0⟩
      | Value.vint _ => ⟨host, 1⟩
  | Binding.prop name =>
      if ownsProp host name then ⟨setProp host name v, 0⟩ else ⟨host, 1⟩
  | Binding.unbound => ⟨host, 0⟩

/-- Classified return value of an effect function, following the dispatch
protocol of §4.4: nothing, a zero-argument teardown function (identified by a
tag), a subscription-like object (adopted as-is), a stream with its later
emissions, an immediate plain value, or a synchronous throw. -/
inductive Ret
  | rnone
  | rteardown (id : Nat)
  | rsub (id : Nat)
  | rstream (emissions : List Value)
  | rvalue (v : Value)
  | rthrows
deriving DecidableEq, Repr

/-- One effect as the engine sees it: method name, resolved binding target,
and the behavior of its effect function. -/
structure EngineEffect where
  name : String
  binding : Binding
  ret : Ret
deriving DecidableEq, Repr

/-- A resource registered in the aggregate teardown scope (`subs`): a teardown
callback, an adopted subscription, or a stream subscription the engine itself
opened (kept with its binding and the emissions it will deliver). -/
inductive ScopeItem
  | teardown (id : Nat)
  | adopted (id : Nat)
  | streamSub (name : String) (binding : Binding) (emissions : List Value)
deriving DecidableEq, Repr

/-- State threaded through initialization of one host's effects: the host
properties, the trace of effect functions invoked, the aggregate scope
contents, the global error count, and whether a synchronous throw aborted the
loop. -/
structure EngineState where
  host : Host
  invoked : List String
  scope : List ScopeItem
  globalErrors : Nat
  aborted : Bool
deriving DecidableEq, Repr

/-- Modelled from the spec: `initEffect` (§4.4), whose implementing file
(`src/lib/internals/utils.ts`) is not among the provided sources, wrapped in
one step of the `InitEffects.run` loop. The effect function is called; a
synchronous throw is not caught by the engine, so it aborts the remaining
iterations of the loop; a teardown callback or subscription-like return is
registered into the aggregate scope; a stream return is subscribed and its
subscription registered; a plain value is bound immediately. -/
def initEffect (s : EngineState) (e : EngineEffect) : EngineState :=
  if s.aborted then s
  else
    let s1 := { s with invoked := s.invoked ++ [e.name] }
    match e.ret with
    | Ret.rthrows => { s1 with aborted := true }
    | Ret.rnone => s1
    | Ret.rteardown id => { s1 with scope := s1.scope ++ [ScopeItem.teardown id] }
    | Ret.rsub id => { s1 with scope := s1.scope ++ [ScopeItem.adopted id] }
    | Ret.rstream ems =>
        { s1 with scope := s1.scope ++ [ScopeItem.streamSub e.name e.binding ems] }
    | Ret.rvalue v =>
        let r := applyEmission e.binding s1.host v
        { s1 with host := r.host, globalErrors := s1.globalErrors + r.errors }

/-- The `InitEffects.run` loop over the engine: every effect initialized in
declaration order, stopped only by an uncaught synchronous throw. -/
def runEngine (host : Host) (effects : List EngineEffect) : EngineState :=
  effects.foldl initEffect ⟨host, [], [], 0, false⟩

/-- Deliver the queued emissions of one stream subscription: each value is
bound through `applyEmission`; binding errors go to the global channel and do
not stop later emissions. -/
def deliverStream (binding : Binding) (ems : List Value) (host : Host) (errs : Nat) :
    Host × Nat :=
  ems.foldl (fun acc v =>
    let r := applyEmission binding acc.1 v
    (r.host, acc.2 + r.errors)) (host, errs)

/-- The asynchronous phase: every stream subscription held in the aggregate
scope delivers its emissions, in scope order. -/
def deliverAll (s : EngineState) : EngineState :=
  s.scope.foldl
    (fun st item =>
      match item with
      | ScopeItem.streamSub _ b ems =>
          let r := deliverStream b ems st.host st.globalErrors
          { st with host := r.1, globalErrors := r.2 }
      | _ => st)
    s

lemma engine_foldl_no_throw (l : List EngineEffect) (s : EngineState)
    (hs : s.aborted = false) (hn : ∀ e ∈ l, e.ret ≠ Ret.rthrows) :
    (l.foldl initEffect s).invoked = s.invoked ++ l.map EngineEffect.name ∧
    (l.foldl initEffect s).aborted = false := by
  induction l generalizing s with
  | nil => exact ⟨by simp, hs⟩
  | cons e es ih =>
      have hne : e.ret ≠ Ret.rthrows := hn e (List.mem_cons_self e es)
      have hstep : (initEffect s e).invoked = s.invoked ++ [e.name] ∧
          (initEffect s e).aborted = false := by
        cases hr : e.ret <;>
          simp_all [initEffect, hs]
      obtain ⟨h1, h2⟩ := ih (initEffect s e) hstep.2 (fun x hx => hn x (List.mem_cons_of_mem _ hx))
      refine ⟨?_, h2⟩
      rw [List.foldl_cons] at *
      rw [h1, hstep.1]
      simp

lemma initEffect_scope_le (s : EngineState) (e : EngineEffect) :
    s.scope.IsPrefix (initEffect s e).scope := by
  by_cases ha : s.aborted
  · simp [initEffect, ha]
  · cases hr : e.ret <;>
      simp [initEffect, ha, hr, List.prefix_append]

lemma engine_foldl_scope_le (l : List EngineEffect) (s : EngineState) :
    s.scope.IsPrefix (l.foldl initEffect s).scope := by
  induction l generalizing s with
  | nil => exact List.prefix_rfl
  | cons e es ih =>
      exact List.IsPrefix.trans (initEffect_scope_le s e) (ih (initEffect s e))

lemma deliverAll_invoked_aux (items : List ScopeItem) (s : EngineState) :
    (items.foldl
        (fun st item =>
          match item with
          | ScopeItem.streamSub _ b ems =>
              let r := deliverStream b ems st.host st.globalErrors
              { st with host := r.1, globalErrors := r.2 }
          | _ => st) s).invoked = s.invoked := by
  induction items generalizing s with
  | nil => rfl
  | cons it rest ih =>
      rw [List.foldl_cons, ih]
      cases it <;> rfl

lemma deliverAll_invoked (s : EngineState) : (deliverAll s).invoked = s.invoked :=
  deliverAll_invoked_aux s.scope s

/-- C3 counterexample: the first effect's function throws synchronously, and
the second effect is never initialized — the uncaught throw aborts the
`InitEffects.run` loop, so a synchronous effect failure (which is neither a
configuration nor a misuse error) does prevent the remaining effects from
running. -/
theorem effect_throw_stops_siblings :
    (runEngine [] [⟨"e1", Binding.unbound, Ret.rthrows⟩,
        ⟨"e2", Binding.unbound, Ret.rnone⟩]).invoked = ["e1"] ∧
    "e2" ∉ (runEngine [] [⟨"e1", Binding.unbound, Ret.rthrows⟩,
        ⟨"e2", Binding.unbound, Ret.rnone⟩]).invoked := by
  decide

/-- C3 amended: binding errors arising while handling an effect's stream (or
immediate value) are surfaced to the global error channel and do not prevent
the host's other effects from being initialized and running — every effect
function is invoked, in declaration order, every stream effect's subscription
is registered in the aggregate scope, and the invocation trace survives the
delivery phase untouched; only a synchronous throw from an effect function
(an uncaught, non-configuration failure) aborts the remaining effects. -/
theorem stream_errors_do_not_stop_siblings (host : Host) (effects : List EngineEffect)
    (hn : ∀ e ∈ effects, e.ret ≠ Ret.rthrows) :
    (runEngine host effects).invoked = effects.map EngineEffect.name ∧
    (runEngine host effects).aborted = false ∧
    (deliverAll (runEngine host effects)).invoked = effects.map EngineEffect.name ∧
    ∀ e ∈ effects, ∀ ems, e.ret = Ret.rstream ems →
      ScopeItem.streamSub e.name e.binding ems ∈ (runEngine host effects).scope := by
  obtain ⟨hinv, hab⟩ := engine_foldl_no_throw effects ⟨host, [], [], 0, false⟩ rfl hn
  refine ⟨by simpa [runEngine] using hinv, by simpa [runEngine] using hab, ?_, ?_⟩
  · rw [deliverAll_invoked]
    simpa [runEngine] using hinv
  · intro e he ems hr
    obtain ⟨l1, l2, hsplit⟩ := List.append_of_mem he
    subst hsplit
    have h1 : ∀ x ∈ l1, x.ret ≠ Ret.rthrows := fun x hx =>
      hn x (List.mem_append.mpr (Or.inl hx))
    obtain ⟨_, hab1⟩ := engine_foldl_no_throw l1 ⟨host, [], [], 0, false⟩ rfl h1
    have hmem : ScopeItem.streamSub e.name e.binding ems ∈
        (initEffect (l1.foldl initEffect ⟨host, [], [], 0, false⟩) e).scope := by
      simp [initEffect, hab1, hr]
    have hpre := engine_foldl_scope_le l2
      (initEffect (l1.foldl initEffect ⟨host, [], [], 0, false⟩) e)
    have := hpre.subset hmem
    simpa [runEngine, List.foldl_append] using this

/-- Witness for C3 amended: two effects, the first one a stream whose emission
misses its binding target, the second still initialized and its stream
subscription registered. -/
theorem stream_errors_do_not_stop_siblings_witness :
    (runEngine [] [⟨"e1", Binding.prop "missing", Ret.rstream [Value.vint 1]⟩,
        ⟨"e2", Binding.unbound, Ret.rstream []⟩]).invoked = ["e1", "e2"] ∧
    (runEngine [] [⟨"e1", Binding.prop "missing", Ret.rstream [Value.vint 1]⟩,
        ⟨"e2", Binding.unbound, Ret.rstream []⟩]).aborted = false ∧
    (deliverAll (runEngine [] [⟨"e1", Binding.prop "missing", Ret.rstream [Value.vint 1]⟩,
        ⟨"e2", Binding.unbound, Ret.rstream []⟩])).invoked = ["e1", "e2"] ∧
    ∀ e ∈ [(⟨"e1", Binding.prop "missing", Ret.rstream [Value.vint 1]⟩ : EngineEffect),
        ⟨"e2", Binding.unbound, Ret.rstream []⟩], ∀ ems, e.ret = Ret.rstream ems →
      ScopeItem.streamSub e.name e.binding ems ∈
        (runEngine [] [⟨"e1", Binding.prop "missing", Ret.rstream [Value.vint 1]⟩,
            ⟨"e2", Binding.unbound, Ret.rstream []⟩]).scope :=
  stream_errors_do_not_stop_siblings []
    [⟨"e1", Binding.prop "missing", Ret.rstream [Value.vint 1]⟩,
      ⟨"e2", Binding.unbound, Ret.rstream []⟩] (by decide)

def teardownId : ScopeItem → Option Nat
  | ScopeItem.teardown id => some id
  | _ => none

/-- The teardown callbacks (by tag) that the effects of a host return, in
declaration order. -/
def teardownIds (effects : List EngineEffect) : List Nat :=
  effects.filterMap (fun e =>
    match e.ret with
    | Ret.rteardown id => some id
    | _ => none)

/-- The aggregate scope as a cancelable handle: its registered items and
whether it was already canceled. -/
structure ScopeHandle where
  items : List ScopeItem
  closed : Bool
deriving DecidableEq, Repr

/-- The `subs.unsubscribe()` call of `InitEffects.ngOnDestroy`, with the
standard composite-subscription contract assumed of the stream library at the
boundary: the first call cancels every member, running each registered
teardown callback once, and closes the handle; a repeated call on a closed
handle does nothing. Returns the new handle and the teardown callbacks
fired. -/
def unsubscribeScope (sc : ScopeHandle) : ScopeHandle × List Nat :=
  if sc.closed then (sc, [])
  else (⟨[], true⟩, sc.items.filterMap teardownId)

lemma initEffect_aborted (s : EngineState) (e : EngineEffect)
    (hs : s.aborted = false) (hne : e.ret ≠ Ret.rthrows) :
    (initEffect s e).aborted = false := by
  cases hr : e.ret <;> simp_all [initEffect]

lemma engine_foldl_teardownIds (l : List EngineEffect) (s : EngineState)
    (hs : s.aborted = false) (hn : ∀ e ∈ l, e.ret ≠ Ret.rthrows) :
    ((l.foldl initEffect s).scope).filterMap teardownId
      = s.scope.filterMap teardownId ++ teardownIds l := by
  induction l generalizing s with
  | nil => simp [teardownIds]
  | cons e es ih =>
      have hne : e.ret ≠ Ret.rthrows := hn e (List.mem_cons_self e es)
      have hab : (initEffect s e).aborted = false := initEffect_aborted s e hs hne
      have hrest := ih (initEffect s e) hab (fun x hx => hn x (List.mem_cons_of_mem _ hx))
      rw [List.foldl_cons, hrest]
      cases hr : e.ret <;>
        simp_all [initEffect, teardownIds, teardownId, List.filterMap_append]

/-- C4: an effect that returned a teardown callback has it run exactly once
when the host is destroyed (`ngOnDestroy` → `subs.unsubscribe()` cancels the
aggregate scope, firing every member once), and a second destroy finds the
scope closed and fires nothing — cancellation is idempotent. -/
theorem teardown_runs_exactly_once (host : Host) (effects : List EngineEffect)
    (e : EngineEffect) (t : Nat)
    (he : e ∈ effects) (hret : e.ret = Ret.rteardown t)
    (hn : ∀ x ∈ effects, x.ret ≠ Ret.rthrows)
    (hnd : (teardownIds effects).Nodup) :
    (unsubscribeScope ⟨(runEngine host effects).scope, false⟩).2.count t = 1 ∧
    (unsubscribeScope (unsubscribeScope ⟨(runEngine host effects).scope, false⟩).1).2 = [] := by
  have hids : ((runEngine host effects).scope).filterMap teardownId = teardownIds effects := by
    simpa [runEngine] using
      engine_foldl_teardownIds effects ⟨host, [], [], 0, false⟩ rfl hn
  have hmem : t ∈ teardownIds effects :=
    List.mem_filterMap.mpr ⟨e, he, by rw [hret]⟩
  constructor
  · simp only [unsubscribeScope, if_neg (by simp : ¬(false = true))]
    rw [hids]
    exact List.count_eq_one_of_mem hnd hmem
  · simp [unsubscribeScope]

/-- Witness for C4: one effect returning teardown tag 3. -/
theorem teardown_runs_exactly_once_witness :
    (unsubscribeScope ⟨(runEngine [] [⟨"e", Binding.unbound, Ret.rteardown 3⟩]).scope,
        false⟩).2.count 3 = 1 ∧
    (unsubscribeScope (unsubscribeScope
        ⟨(runEngine [] [⟨"e", Binding.unbound, Ret.rteardown 3⟩]).scope, false⟩).1).2 = [] :=
  teardown_runs_exactly_once [] [⟨"e", Binding.unbound, Ret.rteardown 3⟩]
    ⟨"e", Binding.unbound, Ret.rteardown 3⟩ 3 (by decide) rfl (by decide) (by decide)

lemma getProp_setProp_same (h : Host) (k : String) (v : Value) :
    getProp (setProp h k v) k = some v := by
  induction h with
  | nil => simp [setProp, getProp]
  | cons p t ih =>
      by_cases hp : p.1 = k
      · simp [setProp, hp, getProp]
      · simp [setProp, hp, getProp, ih]

lemma getProp_setProp_ne (h : Host) (k k' : String) (v : Value) (hne : k' ≠ k) :
    getProp (setProp h k v) k' = getProp h k' := by
  have hkk : ¬k = k' := fun hkk => hne hkk.symm
  induction h with
  | nil => simp [setProp, getProp, hkk]
  | cons p t ih =>
      by_cases hp : p.1 = k
      · simp [setProp, hp, getProp, hkk]
      · simp [setProp, hp, getProp, ih]

lemma writeFields_not_mem (fields : List (String × Int)) (host : Host) (k : String)
    (hk : k ∉ fields.map Prod.fst) :
    getProp (fields.foldl (fun h kv => setProp h kv.1 (Value.vint kv.2)) host) k
      = getProp host k := by
  induction fields generalizing host with
  | nil => rfl
  | cons kv rest ih =>
      rw [List.map_cons] at hk
      have h1 : k ≠ kv.1 := fun hkk => hk (by simp [hkk])
      have h2 : k ∉ rest.map Prod.fst := fun hm => hk (List.mem_cons_of_mem _ hm)
      rw [List.foldl_cons, ih _ h2, getProp_setProp_ne _ _ _ _ h1]

lemma writeFields_mem (fields : List (String × Int)) (host : Host)
    (hnd : (fields.map Prod.fst).Nodup) :
    ∀ kv ∈ fields,
      getProp (fields.foldl (fun h kv => setProp h kv.1 (Value.vint kv.2)) host) kv.1
        = some (Value.vint kv.2) := by
  induction fields generalizing host with
  | nil => intro kv hkv; cases hkv
  | cons kv0 rest ih =>
      intro kv hkv
      rw [List.map_cons, List.nodup_cons] at hnd
      rcases List.mem_cons.mp hkv with heq | hmem
      · subst heq
        rw [List.foldl_cons, writeFields_not_mem rest _ kv.1 hnd.1, getProp_setProp_same]
      · rw [List.foldl_cons]
        exact ih _ hnd.2 kv hmem

/-- C5: an effect bound with `apply` that emits an object has every key of the
object written onto the host property of the same name, with no binding error;
when it emits a non-object value, one binding error reaches the global error
channel and the host is left untouched by that emission. -/
theorem apply_binding_writes_every_key (host : Host) (fields : List (String × Int))
    (n : Int) (hnd : (fields.map Prod.fst).Nodup) :
    (∀ kv ∈ fields,
        getProp (deliverAll (runEngine host
            [⟨"e", Binding.applyAll, Ret.rstream [Value.vobj fields]⟩])).host kv.1
          = some (Value.vint kv.2)) ∧
    (deliverAll (runEngine host
        [⟨"e", Binding.applyAll, Ret.rstream [Value.vobj fields]⟩])).globalErrors = 0 ∧
    (deliverAll (runEngine host
        [⟨"e", Binding.applyAll, Ret.rstream [Value.vint n]⟩])).host = host ∧
    (deliverAll (runEngine host
        [⟨"e", Binding.applyAll, Ret.rstream [Value.vint n]⟩])).globalErrors = 1 := by
  refine ⟨?_, ?_, ?_, ?_⟩
  · intro kv hkv
    have hw := writeFields_mem fields host hnd kv hkv
    simpa [runEngine, initEffect, deliverAll, deliverStream, applyEmission] using hw
  · simp [runEngine, initEffect, deliverAll, deliverStream, applyEmission]
  · simp [runEngine, initEffect, deliverAll, deliverStream, applyEmission]
  · simp [runEngine, initEffect, deliverAll, deliverStream, applyEmission]

/-- Witness for C5: host owning `a` and `b`, emission `{a: 1, b: 2}`, then a
non-object emission `7`. -/
theorem apply_binding_writes_every_key_witness :
    (∀ kv ∈ [("a", (1 : Int)), ("b", 2)],
        getProp (deliverAll (runEngine [("a", Value.vint 0), ("b", Value.vint 5)]
            [⟨"e", Binding.applyAll, Ret.rstream [Value.vobj [("a", 1), ("b", 2)]]⟩])).host kv.1
          = some (Value.vint kv.2)) ∧
    (deliverAll (runEngine [("a", Value.vint 0), ("b", Value.vint 5)]
        [⟨"e", Binding.applyAll,
          Ret.rstream [Value.vobj [("a", 1), ("b", 2)]]⟩])).globalErrors = 0 ∧
    (deliverAll (runEngine [("a", Value.vint 0), ("b", Value.vint 5)]
        [⟨"e", Binding.applyAll, Ret.rstream [Value.vint 7]⟩])).host
      = [("a", Value.vint 0), ("b", Value.vint 5)] ∧
    (deliverAll (runEngine [("a", Value.vint 0), ("b", Value.vint 5)]
        [⟨"e", Binding.applyAll, Ret.rstream [Value.vint 7]⟩])).globalErrors = 1 :=
  apply_binding_writes_every_key [("a", Value.vint 0), ("b", Value.vint 5)]
    [("a", 1), ("b", 2)] 7 (by decide)

/-- The recognized effect configuration record (§3 `EffectOptions`). -/
structure EffectOptions where
  bind : Option String
  apply : Bool
  markDirty : Bool
  detectChanges : Bool
  whenRendered : Bool
deriving DecidableEq, Repr

/-- Configuration errors detected at metadata resolution time. -/
inductive ConfigError
  | bindAndApplyBothSet
deriving DecidableEq, Repr

/-- Modelled from the spec: the Effect Metadata Registry's binding-target
resolution (§4.1); the implementing file (the providers and decorators of the
library) is not among the provided sources. Setting `bind` together with
`apply` is a configuration error; otherwise `bind` wins, then `apply` marks a
whole-object bind, then — outside strict mode — a host property named like the
method binds implicitly, and anything else is a side effect with no
binding. -/
def resolveBinding (opts : EffectOptions) (methodName : String)
    (hostProps : List String) (strict : Bool) : Except ConfigError Binding :=
  if opts.bind.isSome ∧ opts.apply = true then Except.error ConfigError.bindAndApplyBothSet
  else
    match opts.bind with
    | some nm => Except.ok (Binding.prop nm)
    | none =>
        if opts.apply then Except.ok Binding.applyAll
        else if strict = false ∧ methodName ∈ hostProps then Except.ok (Binding.prop methodName)
        else Except.ok Binding.unbound

/-- Resolution of a whole declaring class: each registered method is resolved
independently, in declaration order. -/
def resolveAllMeta (entries : List (String × EffectOptions)) (hostProps : List String)
    (strict : Bool) : List (String × Except ConfigError Binding) :=
  entries.map (fun en => (en.1, resolveBinding en.2 en.1 hostProps strict))

/-- C6: with `bind` unset and `apply` false, an effect whose method name
matches a host property resolves to that property in non-strict mode, and to
no binding (side effect only) in strict mode, whatever the remaining option
flags are. -/
theorem implicit_binding_resolution (md dc wr : Bool) (methodName : String)
    (hostProps : List String) (hmem : methodName ∈ hostProps) :
    resolveBinding ⟨none, false, md, dc, wr⟩ methodName hostProps false
      = Except.ok (Binding.prop methodName) ∧
    resolveBinding ⟨none, false, md, dc, wr⟩ methodName hostProps true
      = Except.ok Binding.unbound := by
  constructor <;> simp [resolveBinding, hmem]

/-- Witness for C6: effect `count` on a host owning property `count`. -/
theorem implicit_binding_resolution_witness :
    resolveBinding ⟨none, false, false, false, false⟩ "count" ["count"] false
      = Except.ok (Binding.prop "count") ∧
    resolveBinding ⟨none, false, false, false, false⟩ "count" ["count"] true
      = Except.ok Binding.unbound :=
  implicit_binding_resolution false false false "count" ["count"] (by decide)

/-- C8: options that set `bind` together with `apply` fail resolution with a
configuration error, surfaced in that effect's own resolution result, while
every other entry of the class resolves exactly as it would on its own — the
error aborts only the misconfigured effect. -/
theorem bind_with_apply_is_config_error (entriesL entriesR : List (String × EffectOptions))
    (methodName b : String) (opts : EffectOptions) (hostProps : List String) (strict : Bool)
    (hb : opts.bind = some b) (ha : opts.apply = true) :
    resolveBinding opts methodName hostProps strict
      = Except.error ConfigError.bindAndApplyBothSet ∧
    resolveAllMeta (entriesL ++ (methodName, opts) :: entriesR) hostProps strict
      = resolveAllMeta entriesL hostProps strict
        ++ (methodName, Except.error ConfigError.bindAndApplyBothSet)
          :: resolveAllMeta entriesR hostProps strict := by
  have h1 : resolveBinding opts methodName hostProps strict
      = Except.error ConfigError.bindAndApplyBothSet := by
    simp [resolveBinding, hb, ha]
  exact ⟨h1, by simp [resolveAllMeta, h1]⟩

/-- Witness for C8: a misconfigured effect between none on the left and one
well-configured effect on the right. -/
theorem bind_with_apply_is_config_error_witness :
    resolveBinding ⟨some "x", true, false, false, false⟩ "m" ["x"] false
      = Except.error ConfigError.bindAndApplyBothSet ∧
    resolveAllMeta ([] ++ ("m", ⟨some "x", true, false, false, false⟩)
          :: [("other", ⟨none, false, false, false, false⟩)]) ["x"] false
      = resolveAllMeta [] ["x"] false
        ++ ("m", Except.error ConfigError.bindAndApplyBothSet)
          :: resolveAllMeta [("other", ⟨none, false, false, false, false⟩)] ["x"] false :=
  bind_with_apply_is_config_error [] [("other", ⟨none, false, false, false, false⟩)]
    "m" "x" ⟨some "x", true, false, false, false⟩ ["x"] false rfl rfl

/-- The statements executed by the `connect` closure of `ConnectFactory`
(src/lib/internals/connect-factory.ts): add the host context to the shared
`currentContext` set, resolve each `HOST_INITIALIZER` token from the injector
in collection order, clear the set. -/
inductive CStep
  | addCtx
  | resolveTok (token : Nat)
  | clearCtx
deriving DecidableEq, Repr

/-- The instruction sequence of one `connect(context)` call. -/
def connectProgram (toks : List Nat) : List CStep :=
  CStep.addCtx :: (toks.map CStep.resolveTok ++ [CStep.clearCtx])

/-- Observable state of a `connect` call: the shared `currentContext` set (as
an insertion-ordered duplicate-free list) and the trace of tokens resolved
from the injector. -/
structure CState where
  currentContext : List Nat
  resolved : List Nat
deriving DecidableEq, Repr

def execStep (ctx : Nat) (s : CState) : CStep → CState
  | CStep.addCtx =>
      { s with currentContext :=
          if ctx ∈ s.currentContext then s.currentContext else s.currentContext ++ [ctx] }
  | CStep.resolveTok t => { s with resolved := s.resolved ++ [t] }
  | CStep.clearCtx => { s with currentContext := [] }

/-- One full `connect(context)` call starting from an empty shared set. -/
def connectRun (ctx : Nat) (toks : List Nat) : CState :=
  (connectProgram toks).foldl (execStep ctx) ⟨[], []⟩

lemma exec_resolve_steps (ctx : Nat) (toks : List Nat) (s : CState) :
    (toks.map CStep.resolveTok).foldl (execStep ctx) s
      = { s with resolved := s.resolved ++ toks } := by
  induction toks generalizing s with
  | nil => simp
  | cons t rest ih => simp [execStep, ih]

/-- C10: a normally returning `connect` call adds the host context to the
shared `currentContext` set before any initializer token is resolved (the
context is in the set at the point every token is resolved), resolves every
`HOST_INITIALIZER` token in the collection's order, and leaves the
`currentContext` set empty when it returns. -/
theorem connect_context_contract (ctx : Nat) (toks : List Nat) :
    (connectRun ctx toks).resolved = toks ∧
    (connectRun ctx toks).currentContext = [] ∧
    ∀ i : Fin toks.length,
      ctx ∈ (((connectProgram toks).take (i.val + 1)).foldl (execStep ctx)
          ⟨[], []⟩).currentContext := by
  have h1 : execStep ctx ⟨[], []⟩ CStep.addCtx = ⟨[ctx], []⟩ := by simp [execStep]
  have hrun : connectRun ctx toks = ⟨[], toks⟩ := by
    rw [connectRun, connectProgram, List.foldl_cons, h1, List.foldl_append,
      exec_resolve_steps]
    simp [execStep]
  refine ⟨by rw [hrun], by rw [hrun], ?_⟩
  intro i
  have hle : i.val ≤ (toks.map CStep.resolveTok).length := by
    rw [List.length_map]
    exact i.isLt.le
  have htake : (connectProgram toks).take (i.val + 1)
      = CStep.addCtx :: (toks.take i.val).map CStep.resolveTok := by
    rw [connectProgram, List.take_succ_cons, List.take_append_of_le_length hle,
      List.map_take]
  rw [htake, List.foldl_cons, h1, exec_resolve_steps]
  simp

end NgEffects
